import Mathlib

set_option linter.unusedSectionVars false

/-!
# Verification of the ctxwire context-propagation library

Shallow embedding of the ctxwire Go package (single-file current variant:
`ValuePropagator`, per-stage error wrapping, `newError` with the
`errors.As` short-circuit, top-level labels "inject context values" /
"extract context values", and the transport decorators), together with
theorems settling the frozen claims about it.

Modelling choices, stated once:
* Go `context.Context` is the copy-on-write key/value chain built by
  `context.WithValue`: a list of bindings, newest first; `ctx.Value(key)`
  returns the newest binding or Go `nil`.  Go's `nil` interface value is
  modelled by `Option.none` in the stored `Option V`, so an explicitly
  stored `nil` and an absent key both make `Ctx.value` return `none`,
  exactly as `ctx.Value` does.
* Go `http.Header` is a mutable map from field name to value where `Set`
  replaces and `Get` returns `""` for a missing field.  The library always
  accesses it through the one derived key `headerKey name`, so MIME case
  canonicalisation (which Go applies consistently on both `Set` and `Get`)
  is dropped; the carrier is an association list with first-match lookup.
* Go `error` values are the inductive `GoErr`: `GoErr.wrapped` is the
  package's `*Error` (message plus wrapped cause), `GoErr.base` is any
  foreign error (`errors.New`, a json error, a base64 CorruptInputError).
  `errors.As(err, &ctxwireErr)` walks the unwrap chain looking for a
  `*Error`; on this grammar that is: the error itself is a `wrapped` node.
* `encoding/base64` (StdEncoding, padded) is implemented concretely over
  byte lists (`Nat` values below 256), faithful to the Go encoder/decoder
  on inputs without ignored whitespace; the decoder rejects illegal
  characters, mid-stream padding and lengths not a multiple of four, and,
  like Go, does not reject non-zero trailing bits.
* `encoding/json` is an external collaborator: `Marshal`/`Unmarshal` are
  opaque parameters (`marshal`, `unmarshal`); `encodeJSON`/`decodeJSON`
  reproduce the library's wrappers around them.  `Unmarshal` may produce
  the Go `nil` (JSON null), hence its result type `Option V`.
* The process-wide registry guarded by a mutex is passed explicitly as the
  ordered propagator list; the mutex serialises calls and has no observable
  effect on the sequential semantics modelled here.
* A general registered propagator (`Propagator`) is a pair of operations:
  `Inject` returns the updated carrier (the Go code mutates it in place)
  together with an optional error, and `Extract` returns either the new
  context or an error (the Go code returns `(nil, err)` on failure and a
  non-nil context otherwise).  `Extract` takes the carrier read-only
  because the source only ever calls `h.Get` on it.
-/

namespace Ctxwire

/-- Go errors reachable in this package: `wrapped` is the package `*Error`
(`message: err`), `base` is any foreign error value. -/
inductive GoErr : Type where
  | base (msg : String) : GoErr
  | wrapped (msg : String) (err : GoErr) : GoErr
deriving DecidableEq, Repr

/-- Model of `errors.As(err, &ctxwireErr)` on this error grammar: `wrapped` nodes are
the package's `*Error`; `base` errors have no `Unwrap`, so the chain ends
there. -/
def GoErr.containsWrapped : GoErr → Bool
  | .base _ => false
  | .wrapped _ _ => true

/-- The source's `newError`: wrap `err` with `message` unless the chain
already holds a package `*Error` (the `errors.As` short-circuit). -/
def newError (message : String) (err : GoErr) : GoErr :=
  if err.containsWrapped then err else .wrapped message err

/-- Chain membership in the style of `errors.Is`: `target` is reachable from `e`
through repeated `Unwrap`. -/
def GoErr.inChain (e target : GoErr) : Bool :=
  if e = target then true
  else
    match e with
    | .base _ => false
    | .wrapped _ inner => inner.inChain target

/-- Some wrapper in the unwrap chain of `e` carries message `label`. -/
def GoErr.hasLabel (e : GoErr) (label : String) : Bool :=
  match e with
  | .base _ => false
  | .wrapped m inner => if m = label then true else inner.hasLabel label

/-! ## base64 (Go `encoding/base64`, StdEncoding with padding) -/

/-- The standard base64 alphabet, in index order. -/
def b64Digits : List Char :=
  "ABCDEFGHIJKLMNOPQRSTUVWXYZabcdefghijklmnopqrstuvwxyz0123456789+/".toList

/-- Digit character of a 6-bit group. -/
def b64Char (n : Nat) : Char := b64Digits.getD n '='

/-- Index of a character in the alphabet, `none` for an illegal character
(`'='` included). -/
def b64Index (c : Char) : Option Nat := b64Digits.findIdx? (· = c)

/-- Legal base64 digit test. -/
def b64Valid (c : Char) : Bool := (b64Index c).isSome

/-- Index of a legal digit (0 for an illegal one; only used under
`b64Valid`). -/
def b64IndexD (c : Char) : Nat := (b64Index c).getD 0

/-- Encode a byte list into base64 characters, three bytes per four
characters, padding the final group with `'='` as Go's StdEncoding does. -/
def encBytes : List Nat → List Char
  | b0 :: b1 :: b2 :: rest =>
      b64Char (b0 / 4) ::
      b64Char (b0 % 4 * 16 + b1 / 16) ::
      b64Char (b1 % 16 * 4 + b2 / 64) ::
      b64Char (b2 % 64) :: encBytes rest
  | [b0, b1] =>
      [b64Char (b0 / 4), b64Char (b0 % 4 * 16 + b1 / 16), b64Char (b1 % 16 * 4), '=']
  | [b0] =>
      [b64Char (b0 / 4), b64Char (b0 % 4 * 16), '=', '=']
  | [] => []

/-- Decode base64 characters into bytes, as Go's
`StdEncoding.DecodeString`: the length must be a multiple of four, padding
may only close the final group, illegal characters are rejected, non-zero
trailing bits are (like Go) accepted. -/
def decBytes : List Char → Option (List Nat)
  | [] => some []
  | c0 :: c1 :: c2 :: c3 :: rest =>
      if c3 = '=' then
        if !rest.isEmpty then none
        else if c2 = '=' then
          if b64Valid c0 && b64Valid c1 then
            some [b64IndexD c0 * 4 + b64IndexD c1 / 16]
          else none
        else
          if b64Valid c0 && b64Valid c1 && b64Valid c2 then
            some [b64IndexD c0 * 4 + b64IndexD c1 / 16,
                  b64IndexD c1 % 16 * 16 + b64IndexD c2 / 4]
          else none
      else
        if b64Valid c0 && b64Valid c1 && b64Valid c2 && b64Valid c3 then
          (decBytes rest).map fun bs =>
            (b64IndexD c0 * 4 + b64IndexD c1 / 16) ::
            (b64IndexD c1 % 16 * 16 + b64IndexD c2 / 4) ::
            (b64IndexD c2 % 4 * 64 + b64IndexD c3) :: bs
        else none
  | _ => none

/-- Go `base64.StdEncoding.EncodeToString`. -/
def base64EncodeToString (bs : List Nat) : String := ⟨encBytes bs⟩

/-- Go `base64.StdEncoding.DecodeString`; `none` is Go's CorruptInputError. -/
def base64DecodeString (s : String) : Option (List Nat) := decBytes s.data

/-- The underlying error returned by the base64 package on corrupt input. -/
def base64CorruptError : GoErr := .base "illegal base64 data"

theorem b64Valid_b64Char : ∀ n, n < 64 → b64Valid (b64Char n) = true := by decide

theorem b64IndexD_b64Char : ∀ n, n < 64 → b64IndexD (b64Char n) = n := by decide

theorem b64Char_ne_pad : ∀ n, n < 64 → ¬ b64Char n = '=' := by decide

theorem decBytes_encBytes :
    ∀ bs : List Nat, (∀ b ∈ bs, b < 256) → decBytes (encBytes bs) = some bs
  | [], _ => rfl
  | [b0], h => by
      have hb0 : b0 < 256 := h b0 (by simp)
      have e0 := b64IndexD_b64Char (b0 / 4) (by omega)
      have e1 := b64IndexD_b64Char (b0 % 4 * 16) (by omega)
      have v0 := b64Valid_b64Char (b0 / 4) (by omega)
      have v1 := b64Valid_b64Char (b0 % 4 * 16) (by omega)
      simp only [encBytes, decBytes, if_pos rfl, List.isEmpty_nil, Bool.not_true,
        Bool.false_eq_true, if_false, v0, v1, Bool.and_self, if_true, e0, e1]
      simp only [Option.some.injEq, List.cons.injEq, and_true]
      omega
  | [b0, b1], h => by
      have hb0 : b0 < 256 := h b0 (by simp)
      have hb1 : b1 < 256 := h b1 (by simp)
      have e0 := b64IndexD_b64Char (b0 / 4) (by omega)
      have e1 := b64IndexD_b64Char (b0 % 4 * 16 + b1 / 16) (by omega)
      have e2 := b64IndexD_b64Char (b1 % 16 * 4) (by omega)
      have v0 := b64Valid_b64Char (b0 / 4) (by omega)
      have v1 := b64Valid_b64Char (b0 % 4 * 16 + b1 / 16) (by omega)
      have v2 := b64Valid_b64Char (b1 % 16 * 4) (by omega)
      have hne : ¬ b64Char (b1 % 16 * 4) = '=' := b64Char_ne_pad _ (by omega)
      simp only [encBytes, decBytes, if_pos rfl, List.isEmpty_nil, Bool.not_true,
        Bool.false_eq_true, if_false, if_neg hne, v0, v1, v2, Bool.and_self, if_true,
        e0, e1, e2]
      simp only [Option.some.injEq, List.cons.injEq, and_true]
      omega
  | b0 :: b1 :: b2 :: rest, h => by
      have hb0 : b0 < 256 := h b0 (by simp)
      have hb1 : b1 < 256 := h b1 (by simp)
      have hb2 : b2 < 256 := h b2 (by simp)
      have ih := decBytes_encBytes rest (fun b hb => h b (by simp [hb]))
      have e0 := b64IndexD_b64Char (b0 / 4) (by omega)
      have e1 := b64IndexD_b64Char (b0 % 4 * 16 + b1 / 16) (by omega)
      have e2 := b64IndexD_b64Char (b1 % 16 * 4 + b2 / 64) (by omega)
      have e3 := b64IndexD_b64Char (b2 % 64) (by omega)
      have v0 := b64Valid_b64Char (b0 / 4) (by omega)
      have v1 := b64Valid_b64Char (b0 % 4 * 16 + b1 / 16) (by omega)
      have v2 := b64Valid_b64Char (b1 % 16 * 4 + b2 / 64) (by omega)
      have v3 := b64Valid_b64Char (b2 % 64) (by omega)
      have hne : ¬ b64Char (b2 % 64) = '=' := b64Char_ne_pad _ (by omega)
      simp only [encBytes, decBytes, if_neg hne, v0, v1, v2, v3, Bool.and_self,
        if_true, e0, e1, e2, e3, ih, Option.map_some']
      simp only [Option.some.injEq, List.cons.injEq, and_true]
      omega

theorem base64_roundtrip (bs : List Nat) (h : ∀ b ∈ bs, b < 256) :
    base64DecodeString (base64EncodeToString bs) = some bs :=
  decBytes_encBytes bs h

theorem encBytes_ne_nil : ∀ bs : List Nat, bs ≠ [] → encBytes bs ≠ []
  | [], h, _ => h rfl
  | [_], _, he => by simp [encBytes] at he
  | [_, _], _, he => by simp [encBytes] at he
  | _ :: _ :: _ :: _, _, he => by simp [encBytes] at he

theorem base64EncodeToString_ne_empty (bs : List Nat) (h : bs ≠ []) :
    base64EncodeToString bs ≠ "" := by
  intro he
  exact encBytes_ne_nil bs h (congrArg String.data he)

/-! ## Header carrier (Go `http.Header` as used by the library) -/

/-- The header carrier: field name to field value, first binding wins.
`http.Header.Set` replaces the binding, `Get` returns the empty string for
a missing field.  The library reads and writes fields only through
`headerKey`, so MIME case folding is elided. -/
abbrev Header : Type := List (String × String)

/-- Go `http.Header.Set`: replace the binding of `k` (append it if absent). -/
def Header.set : Header → String → String → Header
  | [], k, v => [(k, v)]
  | (k', v') :: t, k, v =>
      if k' = k then (k, v) :: t else (k', v') :: Header.set t k v

/-- Go `http.Header.Get`: the value bound to `k`, or `""`. -/
def Header.get : Header → String → String
  | [], _ => ""
  | (k', v') :: t, k => if k' = k then v' else Header.get t k

theorem Header.get_set_self (h : Header) (k v : String) :
    (h.set k v).get k = v := by
  induction h with
  | nil => simp [Header.set, Header.get]
  | cons kv t ih =>
      by_cases hk : kv.1 = k
      · simp [Header.set, Header.get, hk]
      · simp [Header.set, Header.get, hk, ih]

theorem Header.get_set_ne (h : Header) (k v : String) (k' : String) (hk : k' ≠ k) :
    (h.set k v).get k' = h.get k' := by
  induction h with
  | nil => simp [Header.set, Header.get, Ne.symm hk]
  | cons kv t ih =>
      by_cases hk1 : kv.1 = k
      · simp [Header.set, Header.get, hk1, hk, Ne.symm hk]
      · simp only [Header.set, Header.get, hk1, if_false]
        by_cases hk2 : kv.1 = k' <;> simp [hk2, ih]

/-! ## Context (Go `context.Context` value chain) -/

/-- The `context.WithValue` chain: newest binding first.  A stored `none`
models a Go `nil` interface value. -/
abbrev Ctx (K V : Type) : Type := List (K × Option V)

variable {K V : Type} [DecidableEq K]

/-- Go `ctx.Value(key)`: newest binding of `key`, or Go `nil` (`none`). -/
def Ctx.value : Ctx K V → K → Option V
  | [], _ => none
  | (k', v) :: t, k => if k' = k then v else Ctx.value t k

/-- Go `context.WithValue(ctx, key, v)`: extend, never mutate. -/
def Ctx.withValue (ctx : Ctx K V) (k : K) (v : Option V) : Ctx K V :=
  (k, v) :: ctx

/-! ## Propagators -/

/-- Header field name of a propagator: the reserved-prefix transform of
its configured name (`headerKey` of the source). -/
def headerKey (name : String) : String := "x-ctxwire-" ++ name

/-- A registered propagator as the registry sees it (the `Propagator`
interface of the source): `Inject` returns the updated carrier (the Go
method mutates it in place) with an optional error; `Extract` returns the
extended context or an error (Go: `(nil, err)`). -/
structure Propagator (K V : Type) where
  Inject : Ctx K V → Header → Header × Option GoErr
  Extract : Ctx K V → Header → Except GoErr (Ctx K V)

/-- The source's `ValuePropagator`: one codec pair bound to one name and
one context key.  The encoder's `(nil, nil)` result is `.ok []`; the
decoder's `(nil, err)` result is `.error e`. -/
structure ValuePropagator (K V : Type) where
  name : String
  contextKey : K
  encoder : Ctx K V → K → Except GoErr (List Nat)
  decoder : Ctx K V → K → List Nat → Except GoErr (Ctx K V)

/-- The source's `ValuePropagator.Inject`: encode (wrapping a failure as
"encode context value"), skip the header entirely on an empty payload,
otherwise set the derived field to the base64 text. -/
def ValuePropagator.Inject (p : ValuePropagator K V) (ctx : Ctx K V) (h : Header) :
    Header × Option GoErr :=
  match p.encoder ctx p.contextKey with
  | .error e => (h, some (newError "encode context value" e))
  | .ok data =>
      if data.length = 0 then (h, none)
      else (h.set (headerKey p.name) (base64EncodeToString data), none)

/-- The source's `ValuePropagator.Extract`: missing or empty field leaves
the context untouched; corrupt base64 fails as "base64 decode context
value"; a decoder failure fails as "decode context value"; otherwise the
decoder's context is returned. -/
def ValuePropagator.Extract (p : ValuePropagator K V) (ctx : Ctx K V) (h : Header) :
    Except GoErr (Ctx K V) :=
  let vStr := h.get (headerKey p.name)
  if vStr = "" then .ok ctx
  else
    match base64DecodeString vStr with
    | none => .error (newError "base64 decode context value" base64CorruptError)
    | some v =>
        match p.decoder ctx p.contextKey v with
        | .error e => .error (newError "decode context value" e)
        | .ok newCtx => .ok newCtx

/-- A `ValuePropagator` used through the `Propagator` interface. -/
def ValuePropagator.toPropagator (p : ValuePropagator K V) : Propagator K V :=
  { Inject := p.Inject, Extract := p.Extract }

/-! ## Default JSON codec (`encodeJSON` / `decodeJSON` of the source);
`json.Marshal` / `json.Unmarshal` are opaque external collaborators, and
`Unmarshal` may produce the Go `nil` (JSON null), hence `Option V`. -/

/-- The source's `encodeJSON`: a `nil` context value (absent key or stored `nil`) gives
`(nil, nil)`; otherwise the value is marshalled. -/
def encodeJSON (marshal : V → Except GoErr (List Nat))
    (ctx : Ctx K V) (key : K) : Except GoErr (List Nat) :=
  match ctx.value key with
  | none => .ok []
  | some v => marshal v

/-- The source's `decodeJSON`: unmarshal the payload and store the result under `key`,
replacing any previous value. -/
def decodeJSON (unmarshal : List Nat → Except GoErr (Option V))
    (ctx : Ctx K V) (key : K) (data : List Nat) : Except GoErr (Ctx K V) :=
  match unmarshal data with
  | .error e => .error e
  | .ok v => .ok (ctx.withValue key v)

/-- The source's `NewJSONPropagator`: a `ValuePropagator` whose codec is the default
JSON one. -/
def NewJSONPropagator (name : String) (contextKey : K)
    (marshal : V → Except GoErr (List Nat))
    (unmarshal : List Nat → Except GoErr (Option V)) : ValuePropagator K V :=
  { name := name, contextKey := contextKey,
    encoder := encodeJSON marshal, decoder := decodeJSON unmarshal }

/-! ## Registry (`propagatorRegister` of the source).  The process-wide
mutex-guarded list is passed explicitly; iteration order is registration
order. -/

/-- The source's `propagatorRegister.Inject`: run every propagator against the same
context and the one carrier, stopping at the first error (the carrier
keeps the writes made before the failure). -/
def propagatorRegister.Inject :
    List (Propagator K V) → Ctx K V → Header → Header × Option GoErr
  | [], _, h => (h, none)
  | p :: ps, ctx, h =>
      match p.Inject ctx h with
      | (h', some e) => (h', some e)
      | (h', none) => propagatorRegister.Inject ps ctx h'

/-- The source's `propagatorRegister.Extract`: thread the context through the
propagators in registration order, stopping at the first error with a nil
context. -/
def propagatorRegister.Extract :
    List (Propagator K V) → Ctx K V → Header → Except GoErr (Ctx K V)
  | [], ctx, _ => .ok ctx
  | p :: ps, ctx, h =>
      match p.Extract ctx h with
      | .error e => .error e
      | .ok ctx' => propagatorRegister.Extract ps ctx' h

/-- Top-level `Inject`: the registry's result, a failure wrapped by
`newError "inject context values"`. -/
def Inject (ps : List (Propagator K V)) (ctx : Ctx K V) (h : Header) :
    Header × Option GoErr :=
  match propagatorRegister.Inject ps ctx h with
  | (h', some e) => (h', some (newError "inject context values" e))
  | (h', none) => (h', none)

/-- Top-level `Extract`: the registry's result, a failure wrapped by
`newError "extract context values"` with a nil context. -/
def Extract (ps : List (Propagator K V)) (ctx : Ctx K V) (h : Header) :
    Except GoErr (Ctx K V) :=
  match propagatorRegister.Extract ps ctx h with
  | .error e => .error (newError "extract context values" e)
  | .ok c => .ok c

/-! ## Transport decorator (`extractTransport.RoundTrip` of the source) -/

/-- An outbound `http.Request`: its context and headers. -/
structure Request (K V : Type) where
  ctx : Ctx K V
  header : Header

/-- An `http.Response`: its headers plus an opaque body. -/
structure Response where
  header : Header
  body : String

/-- Result of a decorated round trip: the optional response, the optional
error, and the request as left behind (its context is rebound on a
successful extraction, since the source assigns through the request
pointer). -/
structure RoundTripResult (K V : Type) where
  resp : Option Response
  err : Option GoErr
  req : Request K V

/-- The source's `extractTransport.RoundTrip`: delegate to the wrapped round tripper
(passing its failure through unchanged), then extract from the response
headers into the request's context; an extraction failure still returns
the response, next to the error. -/
def extractTransport.RoundTrip (ps : List (Propagator K V))
    (inner : Request K V → Except GoErr Response) (req : Request K V) :
    RoundTripResult K V :=
  match inner req with
  | .error e => ⟨none, some e, req⟩
  | .ok resp =>
      match Extract ps req.ctx resp.header with
      | .error e => ⟨some resp, some e, req⟩
      | .ok ctx => ⟨some resp, none, { req with ctx := ctx }⟩

/-! ## Claim theorems -/

/-- C2: with propagators [A, B, C] where B's encoder fails, the registry's
Inject returns B's wrapped error together with the carrier exactly as A
left it (A's fields remain, no rollback), and the result does not depend
on C — C's Inject is never invoked, so C's field is absent. -/
theorem inject_fail_stop (A C : Propagator K V) (B : ValuePropagator K V)
    (ctx : Ctx K V) (h₀ h₁ : Header) (e : GoErr)
    (hA : A.Inject ctx h₀ = (h₁, none))
    (hB : B.encoder ctx B.contextKey = .error e) :
    propagatorRegister.Inject [A, B.toPropagator, C] ctx h₀
      = (h₁, some (newError "encode context value" e)) := by
  simp [propagatorRegister.Inject, hA, ValuePropagator.toPropagator,
    ValuePropagator.Inject, hB]

def w2A : ValuePropagator Nat Nat :=
  { name := "a", contextKey := 0,
    encoder := fun _ _ => .ok [1], decoder := fun c _ _ => .ok c }

def w2B : ValuePropagator Nat Nat :=
  { name := "b", contextKey := 1,
    encoder := fun _ _ => .error (.base "failed!"), decoder := fun c _ _ => .ok c }

def w2C : ValuePropagator Nat Nat :=
  { name := "c", contextKey := 2,
    encoder := fun _ _ => .ok [3], decoder := fun c _ _ => .ok c }

theorem inject_fail_stop_witness :
    w2A.toPropagator.Inject [] []
        = (Header.set [] (headerKey "a") (base64EncodeToString [1]), none)
      ∧ w2B.encoder [] w2B.contextKey = .error (.base "failed!")
      ∧ propagatorRegister.Inject [w2A.toPropagator, w2B.toPropagator, w2C.toPropagator]
          [] []
        = (Header.set [] (headerKey "a") (base64EncodeToString [1]),
           some (newError "encode context value" (.base "failed!"))) :=
  ⟨rfl, rfl,
    inject_fail_stop w2A.toPropagator w2C.toPropagator w2B [] []
      (Header.set [] (headerKey "a") (base64EncodeToString [1]))
      (.base "failed!") rfl rfl⟩

/-- C1: with propagators [A, B, C] where A extracts successfully and B's
field is present, a failure of B's decoder (respectively of the base64
decode of B's field) makes the registry's Extract return the error case —
no context at all, so the context extended by A never reaches the caller —
carrying B's wrapped error; the result does not depend on C, which is
never invoked. -/
theorem extract_fail_void (A C : Propagator K V) (B : ValuePropagator K V)
    (ctx ctx₁ : Ctx K V) (h : Header)
    (hA : A.Extract ctx h = .ok ctx₁)
    (hpresent : ¬ h.get (headerKey B.name) = "") :
    (∀ data e, base64DecodeString (h.get (headerKey B.name)) = some data →
        B.decoder ctx₁ B.contextKey data = .error e →
        propagatorRegister.Extract [A, B.toPropagator, C] ctx h
          = .error (newError "decode context value" e))
    ∧ (base64DecodeString (h.get (headerKey B.name)) = none →
        propagatorRegister.Extract [A, B.toPropagator, C] ctx h
          = .error (newError "base64 decode context value" base64CorruptError)) := by
  constructor
  · intro data e hdata hdec
    simp [propagatorRegister.Extract, hA, ValuePropagator.toPropagator,
      ValuePropagator.Extract, hpresent, hdata, hdec]
  · intro hbad
    simp [propagatorRegister.Extract, hA, ValuePropagator.toPropagator,
      ValuePropagator.Extract, hpresent, hbad]

def w1A : ValuePropagator Nat Nat :=
  { name := "a", contextKey := 0,
    encoder := fun _ _ => .ok [1], decoder := fun c _ _ => .ok c }

def w1B : ValuePropagator Nat Nat :=
  { name := "b", contextKey := 1,
    encoder := fun _ _ => .ok [2], decoder := fun _ _ _ => .error (.base "failed!") }

def w1C : ValuePropagator Nat Nat :=
  { name := "c", contextKey := 2,
    encoder := fun _ _ => .ok [3], decoder := fun c _ _ => .ok c }

def w1Header : Header := [(headerKey "b", base64EncodeToString [2])]

theorem extract_fail_void_witness :
    w1A.toPropagator.Extract [] w1Header = .ok []
      ∧ ¬ w1Header.get (headerKey w1B.name) = ""
      ∧ base64DecodeString (w1Header.get (headerKey w1B.name)) = some [2]
      ∧ w1B.decoder [] w1B.contextKey [2] = .error (.base "failed!")
      ∧ propagatorRegister.Extract
          [w1A.toPropagator, w1B.toPropagator, w1C.toPropagator] [] w1Header
        = .error (newError "decode context value" (.base "failed!")) :=
  ⟨rfl, by decide, by decide, rfl,
    (extract_fail_void w1A.toPropagator w1C.toPropagator w1B [] [] w1Header
        rfl (by decide)).1 [2] (.base "failed!") (by decide) rfl⟩

/-- C5: the registry's Extract applies the propagators in registration
order and threads the context: once A has extended the context to ctx₁,
the rest of the list runs from ctx₁ (so B's decoder observes A's effect),
and for the two-element registry [A, B] the result is exactly B's Extract
applied to A's output context. -/
theorem extract_order_threading (A B : Propagator K V) (ps : List (Propagator K V))
    (ctx ctx₁ : Ctx K V) (h : Header)
    (hA : A.Extract ctx h = .ok ctx₁) :
    propagatorRegister.Extract (A :: B :: ps) ctx h
        = propagatorRegister.Extract (B :: ps) ctx₁ h
    ∧ propagatorRegister.Extract [A, B] ctx h = B.Extract ctx₁ h := by
  refine ⟨by simp [propagatorRegister.Extract, hA], ?_⟩
  simp only [propagatorRegister.Extract, hA]
  cases hb : B.Extract ctx₁ h <;> simp [propagatorRegister.Extract, hb]

def w5A : ValuePropagator Nat Nat :=
  { name := "a", contextKey := 0,
    encoder := fun _ _ => .ok [1],
    decoder := fun c k _ => .ok (c.withValue k (some 7)) }

def w5B : ValuePropagator Nat Nat :=
  { name := "b", contextKey := 1,
    encoder := fun _ _ => .ok [2],
    decoder := fun c k _ => .ok (c.withValue k (c.value 0)) }

def w5Header : Header :=
  [(headerKey "a", base64EncodeToString [1]), (headerKey "b", base64EncodeToString [2])]

theorem extract_order_threading_witness :
    w5A.toPropagator.Extract [] w5Header = .ok (Ctx.withValue [] 0 (some 7))
      ∧ propagatorRegister.Extract [w5A.toPropagator, w5B.toPropagator] [] w5Header
          = w5B.toPropagator.Extract (Ctx.withValue [] 0 (some 7)) w5Header
      ∧ w5B.toPropagator.Extract (Ctx.withValue [] 0 (some 7)) w5Header
          = .ok (Ctx.withValue (Ctx.withValue [] 0 (some 7)) 1 (some 7)) :=
  ⟨rfl,
    (extract_order_threading w5A.toPropagator w5B.toPropagator []
        [] (Ctx.withValue [] 0 (some 7)) w5Header rfl).2,
    rfl⟩

/-- C4: a propagator whose encoder follows the codec contract of the spec
(absent value, i.e. a nil `ctx.Value`, encodes to a zero-length payload
with no error) injects nothing at all — no error and a byte-for-byte
unchanged carrier — when the context has no value under its key; and its
Extract returns exactly the input context with no error whenever the
carrier lacks its field or holds an empty value for it (`Get` returns `""`
in both cases). -/
theorem absence_is_silent (p : ValuePropagator K V)
    (hcontract : ∀ c : Ctx K V, Ctx.value c p.contextKey = none →
        p.encoder c p.contextKey = .ok [])
    (ctx : Ctx K V) (h : Header) (habs : ctx.value p.contextKey = none) :
    p.Inject ctx h = (h, none)
    ∧ ∀ (ctx₂ : Ctx K V) (h₂ : Header),
        h₂.get (headerKey p.name) = "" → p.Extract ctx₂ h₂ = .ok ctx₂ := by
  constructor
  · simp [ValuePropagator.Inject, hcontract ctx habs]
  · intro ctx₂ h₂ hempty
    simp [ValuePropagator.Extract, hempty]

def w4p : ValuePropagator Nat Nat :=
  NewJSONPropagator "j" 0 (fun v => .ok [v % 256]) (fun d => .ok (d.head?))

theorem absence_is_silent_witness :
    Ctx.value ([] : Ctx Nat Nat) w4p.contextKey = none
      ∧ w4p.Inject [] [("other", "z")] = ([("other", "z")], none)
      ∧ w4p.Extract [(0, some 3)] [("other", "z")] = .ok [(0, some 3)] :=
  ⟨rfl,
    (absence_is_silent w4p
        (fun c hc => by
          have hc0 : Ctx.value c 0 = none := hc
          simp [w4p, NewJSONPropagator, encodeJSON, hc0])
        [] [("other", "z")] rfl).1,
    (absence_is_silent w4p
        (fun c hc => by
          have hc0 : Ctx.value c 0 = none := hc
          simp [w4p, NewJSONPropagator, encodeJSON, hc0])
        [] [("other", "z")] rfl).2 [(0, some 3)] [("other", "z")] (by decide)⟩

/-- C7: a present header value that is not valid base64 makes the
propagator's Extract return the error case (nil context) with the
wire-format error, wrapped as "base64 decode context value" — carrying
that label in its chain — and that label differs from the codec failure
label "decode context value", so the two kinds are distinguishable by
message. -/
theorem wire_format_failure (p : ValuePropagator K V) (ctx : Ctx K V) (h : Header)
    (hpresent : ¬ h.get (headerKey p.name) = "")
    (hbad : base64DecodeString (h.get (headerKey p.name)) = none) :
    p.Extract ctx h
        = .error (.wrapped "base64 decode context value" base64CorruptError)
    ∧ (GoErr.wrapped "base64 decode context value" base64CorruptError).hasLabel
        "base64 decode context value" = true
    ∧ ("base64 decode context value" : String) ≠ "decode context value" := by
  refine ⟨?_, by decide, by decide⟩
  simp [ValuePropagator.Extract, hpresent, hbad, newError, GoErr.containsWrapped,
    base64CorruptError]

def w7p : ValuePropagator Nat Nat :=
  { name := "p", contextKey := 0,
    encoder := fun _ _ => .ok [1], decoder := fun c _ _ => .ok c }

theorem wire_format_failure_witness :
    ¬ Header.get [(headerKey "p", "###")] (headerKey w7p.name) = ""
      ∧ base64DecodeString (Header.get [(headerKey "p", "###")] (headerKey w7p.name))
          = none
      ∧ w7p.Extract [] [(headerKey "p", "###")]
          = .error (.wrapped "base64 decode context value" base64CorruptError) :=
  ⟨by decide, by decide,
    (wire_format_failure w7p [] [(headerKey "p", "###")] (by decide) (by decide)).1⟩

/-- C3: for any value the codec can carry — the encoder yields a non-empty
byte payload on the inject-side context, and the decoder, run on the
extract-side context with exactly that payload, extends it so that the
propagator's key holds `v` (for the default JSON codec a plain overwrite,
for merge-style codecs the deterministic merge) — Inject into an empty
carrier writes the single base64 field, and Extract from that same
carrier succeeds and returns the decoder's context, whose value under the
key is `v`. -/
theorem inject_extract_roundtrip (p : ValuePropagator K V) (ctx ctx₂ ctx' : Ctx K V)
    (data : List Nat) (v : V)
    (henc : p.encoder ctx p.contextKey = .ok data)
    (hne : data ≠ []) (hbytes : ∀ b ∈ data, b < 256)
    (hdec : p.decoder ctx₂ p.contextKey data = .ok ctx')
    (hv : ctx'.value p.contextKey = some v) :
    p.Inject ctx []
        = (Header.set [] (headerKey p.name) (base64EncodeToString data), none)
    ∧ p.Extract ctx₂ (Header.set [] (headerKey p.name) (base64EncodeToString data))
        = .ok ctx'
    ∧ ctx'.value p.contextKey = some v := by
  refine ⟨?_, ?_, hv⟩
  · have : ¬ data.length = 0 := by simpa [List.length_eq_zero] using hne
    simp [ValuePropagator.Inject, henc, this]
  · have hget := Header.get_set_self [] (headerKey p.name) (base64EncodeToString data)
    have hnem := base64EncodeToString_ne_empty data hne
    simp [ValuePropagator.Extract, hget, hnem, base64_roundtrip data hbytes, hdec]

def w3p : ValuePropagator Nat Nat :=
  { name := "n", contextKey := 0,
    encoder := fun _ _ => .ok [8],
    decoder := fun c k _ => .ok (c.withValue k (some 7)) }

theorem inject_extract_roundtrip_witness :
    w3p.encoder [] w3p.contextKey = .ok [8]
      ∧ w3p.decoder [] w3p.contextKey [8] = .ok (Ctx.withValue [] 0 (some 7))
      ∧ w3p.Inject [] []
          = (Header.set [] (headerKey "n") (base64EncodeToString [8]), none)
      ∧ w3p.Extract [] (Header.set [] (headerKey "n") (base64EncodeToString [8]))
          = .ok (Ctx.withValue [] 0 (some 7))
      ∧ Ctx.value (Ctx.withValue [] 0 (some 7)) w3p.contextKey = some 7 :=
  ⟨rfl, rfl,
    (inject_extract_roundtrip w3p [] [] (Ctx.withValue [] 0 (some 7)) [8] 7
        rfl (by decide) (by decide) rfl rfl).1,
    (inject_extract_roundtrip w3p [] [] (Ctx.withValue [] 0 (some 7)) [8] 7
        rfl (by decide) (by decide) rfl rfl).2.1,
    rfl⟩

theorem ValuePropagator.Inject_fst_get (p : ValuePropagator K V) (ctx : Ctx K V)
    (h : Header) (k : String) (hkp : ¬ k = headerKey p.name) :
    ((p.Inject ctx h).1).get k = h.get k := by
  unfold ValuePropagator.Inject
  cases p.encoder ctx p.contextKey with
  | error e => rfl
  | ok data =>
      by_cases hd : data.length = 0
      · simp [hd]
      · simp [hd, Header.get_set_ne _ _ _ _ hkp]

theorem inject_writes_only_derived (ps : List (ValuePropagator K V)) (ctx : Ctx K V)
    (h : Header) (k : String) (hk : ∀ p ∈ ps, ¬ k = headerKey p.name) :
    ((propagatorRegister.Inject (ps.map ValuePropagator.toPropagator) ctx h).1).get k
      = h.get k := by
  induction ps generalizing h with
  | nil => rfl
  | cons p ps ih =>
      have hkp : ¬ k = headerKey p.name := hk p (by simp)
      have hk' : ∀ q ∈ ps, ¬ k = headerKey q.name := fun q hq => hk q (by simp [hq])
      have hfst : ((p.Inject ctx h).1).get k = h.get k :=
        ValuePropagator.Inject_fst_get p ctx h k hkp
      simp only [List.map_cons, propagatorRegister.Inject]
      cases hp : p.toPropagator.Inject ctx h with
      | mk h' oe =>
          have hh' : h'.get k = h.get k := by
            have : h' = (p.Inject ctx h).1 := by
              rw [show p.toPropagator.Inject = p.Inject from rfl] at hp
              exact (congrArg Prod.fst hp).symm
            rw [this]; exact hfst
          cases oe with
          | some e => simpa using hh'
          | none => simpa [ih h' hk'] using hh'

theorem ValuePropagator.Extract_reads_own_field (p : ValuePropagator K V)
    (ctx : Ctx K V) (h₂ h : Header)
    (hsame : h₂.get (headerKey p.name) = h.get (headerKey p.name)) :
    p.Extract ctx h₂ = p.Extract ctx h := by
  simp only [ValuePropagator.Extract, hsame]

theorem extract_reads_only_derived (ps : List (ValuePropagator K V)) (ctx : Ctx K V)
    (h₂ h : Header)
    (hsame : ∀ p ∈ ps, h₂.get (headerKey p.name) = h.get (headerKey p.name)) :
    propagatorRegister.Extract (ps.map ValuePropagator.toPropagator) ctx h₂
      = propagatorRegister.Extract (ps.map ValuePropagator.toPropagator) ctx h := by
  induction ps generalizing ctx with
  | nil => rfl
  | cons p ps ih =>
      have hp : h₂.get (headerKey p.name) = h.get (headerKey p.name) := hsame p (by simp)
      have hsame' : ∀ q ∈ ps, h₂.get (headerKey q.name) = h.get (headerKey q.name) :=
        fun q hq => hsame q (by simp [hq])
      simp only [List.map_cons, propagatorRegister.Extract,
        show p.toPropagator.Extract = p.Extract from rfl,
        ValuePropagator.Extract_reads_own_field p ctx h₂ h hp]
      cases p.Extract ctx h with
      | error e => rfl
      | ok ctx' => exact ih ctx' hsame'

/-- C9: every header field name used by the library is the fixed transform
"x-ctxwire-" prepended to the propagator name; the registry's Inject over
value propagators leaves every carrier entry other than those derived
names unchanged; and the registry's Extract reads the carrier only at the
derived names (two carriers agreeing there give identical results) and,
being typed as a pure reader of the carrier in this embedding exactly
because the source only calls Get on it, modifies no entry. -/
theorem registry_header_frame (ps : List (ValuePropagator K V)) (ctx : Ctx K V)
    (h : Header) :
    (∀ s, headerKey s = "x-ctxwire-" ++ s)
    ∧ (∀ k, (∀ p ∈ ps, ¬ k = headerKey p.name) →
        ((propagatorRegister.Inject (ps.map ValuePropagator.toPropagator) ctx h).1).get k
          = h.get k)
    ∧ (∀ h₂ : Header,
        (∀ p ∈ ps, h₂.get (headerKey p.name) = h.get (headerKey p.name)) →
        propagatorRegister.Extract (ps.map ValuePropagator.toPropagator) ctx h₂
          = propagatorRegister.Extract (ps.map ValuePropagator.toPropagator) ctx h) :=
  ⟨fun _ => rfl,
    fun k hk => inject_writes_only_derived ps ctx h k hk,
    fun h₂ hsame => extract_reads_only_derived ps ctx h₂ h hsame⟩

def w9p : ValuePropagator Nat Nat :=
  { name := "p", contextKey := 0,
    encoder := fun _ _ => .ok [5], decoder := fun c _ _ => .ok c }

theorem registry_header_frame_witness :
    headerKey "p" = "x-ctxwire-p"
      ∧ ((propagatorRegister.Inject [w9p.toPropagator] ([] : Ctx Nat Nat)
            [("other", "z")]).1).get "other" = Header.get [("other", "z")] "other"
      ∧ propagatorRegister.Extract [w9p.toPropagator] ([] : Ctx Nat Nat)
            [("noise", "1")]
          = propagatorRegister.Extract [w9p.toPropagator] ([] : Ctx Nat Nat) [] :=
  ⟨(registry_header_frame [w9p] ([] : Ctx Nat Nat) [("other", "z")]).1 "p",
    (registry_header_frame [w9p] ([] : Ctx Nat Nat) [("other", "z")]).2.1 "other"
      (by decide),
    (registry_header_frame [w9p] ([] : Ctx Nat Nat) []).2.2 [("noise", "1")]
      (by decide)⟩

theorem newError_inChain (m : String) (e : GoErr) :
    (newError m e).inChain e = true := by
  cases e with
  | base s => simp [newError, GoErr.containsWrapped, GoErr.inChain]
  | wrapped m' e' => simp [newError, GoErr.containsWrapped, GoErr.inChain]

theorem newError_hasLabel (m : String) (e : GoErr) (hnw : e.containsWrapped = false) :
    (newError m e).hasLabel m = true := by
  cases e with
  | base s => simp [newError, GoErr.containsWrapped, GoErr.hasLabel]
  | wrapped m' e' => simp [GoErr.containsWrapped] at hnw

def c6p : ValuePropagator Nat Nat :=
  { name := "encode", contextKey := 0,
    encoder := fun _ _ => .error (.base "failed!"), decoder := fun c _ _ => .ok c }

/-- C6 counterexample: a registered ValuePropagator whose encoder fails
makes the top-level Inject return the error as wrapped by the propagator
stage alone — "encode context value: failed!" — and no wrapper in that
error's unwrap chain carries the call-level label "inject context values",
because newError's errors.As check sees the package Error already present
and skips the call-level wrap (exactly what the repository's TestError
expects). -/
theorem aggregate_label_counterexample :
    (Inject [c6p.toPropagator] ([] : Ctx Nat Nat) []).2
        = some (.wrapped "encode context value" (.base "failed!"))
      ∧ (GoErr.wrapped "encode context value" (.base "failed!")).hasLabel
          "inject context values" = false := ⟨rfl, rfl⟩

/-- C6 amended: when a registered propagator fails, top-level Inject
(respectively Extract) returns newError of the call-level label "inject
context values" (respectively "extract context values") applied to the
propagator's error: the label is attached only when that error's chain
does not already contain a package Error wrapper, and in every case the
propagator's original error stays reachable through the Unwrap chain of
the returned error. -/
theorem aggregate_label_amended (ps : List (Propagator K V)) (ctx : Ctx K V)
    (h : Header) :
    (∀ h' e, propagatorRegister.Inject ps ctx h = (h', some e) →
        Inject ps ctx h = (h', some (newError "inject context values" e))
        ∧ (newError "inject context values" e).inChain e = true
        ∧ (e.containsWrapped = false →
            (newError "inject context values" e).hasLabel "inject context values"
              = true))
    ∧ (∀ e, propagatorRegister.Extract ps ctx h = .error e →
        Extract ps ctx h = .error (newError "extract context values" e)
        ∧ (newError "extract context values" e).inChain e = true
        ∧ (e.containsWrapped = false →
            (newError "extract context values" e).hasLabel "extract context values"
              = true)) := by
  constructor
  · intro h' e hfail
    exact ⟨by simp [Inject, hfail], newError_inChain _ e,
      fun hnw => newError_hasLabel _ e hnw⟩
  · intro e hfail
    exact ⟨by simp [Extract, hfail], newError_inChain _ e,
      fun hnw => newError_hasLabel _ e hnw⟩

def c6q : Propagator Nat Nat :=
  { Inject := fun _ h => (h, some (.base "raw")),
    Extract := fun _ _ => .error (.base "raw") }

theorem aggregate_label_amended_witness :
    propagatorRegister.Inject [c6q] ([] : Ctx Nat Nat) [] = ([], some (.base "raw"))
      ∧ Inject [c6q] ([] : Ctx Nat Nat) []
          = ([], some (newError "inject context values" (.base "raw")))
      ∧ (newError "inject context values" (.base "raw")).inChain (.base "raw") = true
      ∧ (newError "inject context values" (.base "raw")).hasLabel
          "inject context values" = true :=
  ⟨rfl,
    ((aggregate_label_amended [c6q] ([] : Ctx Nat Nat) []).1 [] (.base "raw") rfl).1,
    ((aggregate_label_amended [c6q] ([] : Ctx Nat Nat) []).1 [] (.base "raw") rfl).2.1,
    ((aggregate_label_amended [c6q] ([] : Ctx Nat Nat) []).1 [] (.base "raw") rfl).2.2
      rfl⟩

/-- C8: for the extract-on-receive transport decorator, if the wrapped
exchange primitive returns a response and the extraction from its headers
fails, the decorated call returns that response and the extraction error
together (both present) with the request untouched; and if the primitive
itself fails, its error is passed through unchanged with no response, and
extraction never runs — the result is the same for every propagator
list. -/
theorem extract_transport_behaviour (inner : Request K V → Except GoErr Response)
    (ps : List (Propagator K V)) (req : Request K V) :
    (∀ resp e, inner req = .ok resp → Extract ps req.ctx resp.header = .error e →
        extractTransport.RoundTrip ps inner req = ⟨some resp, some e, req⟩)
    ∧ (∀ e, inner req = .error e →
        ∀ qs : List (Propagator K V),
          extractTransport.RoundTrip qs inner req = ⟨none, some e, req⟩) := by
  constructor
  · intro resp e hok hex
    simp [extractTransport.RoundTrip, hok, hex]
  · intro e hfail qs
    simp [extractTransport.RoundTrip, hfail]

def w8p : ValuePropagator Nat Nat :=
  { name := "b", contextKey := 0,
    encoder := fun _ _ => .ok [1], decoder := fun c _ _ => .ok c }

def w8resp : Response := ⟨[(headerKey "b", "###")], "OK"⟩

theorem extract_transport_behaviour_witness :
    Extract [w8p.toPropagator] ([] : Ctx Nat Nat) w8resp.header
        = .error (.wrapped "base64 decode context value" base64CorruptError)
      ∧ extractTransport.RoundTrip [w8p.toPropagator]
            (fun _ => .ok w8resp) (⟨[], []⟩ : Request Nat Nat)
          = ⟨some w8resp,
             some (.wrapped "base64 decode context value" base64CorruptError),
             ⟨[], []⟩⟩
      ∧ extractTransport.RoundTrip [w8p.toPropagator]
            (fun _ => .error (.base "net down")) (⟨[], []⟩ : Request Nat Nat)
          = ⟨none, some (.base "net down"), ⟨[], []⟩⟩ :=
  ⟨rfl,
    (extract_transport_behaviour (fun _ => .ok w8resp) [w8p.toPropagator]
        (⟨[], []⟩ : Request Nat Nat)).1 w8resp
      (.wrapped "base64 decode context value" base64CorruptError) rfl rfl,
    (extract_transport_behaviour (fun _ => .error (.base "net down"))
        [w8p.toPropagator] (⟨[], []⟩ : Request Nat Nat)).2 (.base "net down") rfl
      [w8p.toPropagator]⟩

/-- C10: under the default JSON codec a context value explicitly stored as
Go nil is indistinguishable from an absent key: the lookup yields nil, the
encoder returns a zero-length payload with no error in both the
stored-nil and the absent case, and Inject of the JSON propagator on a
context whose key holds a stored nil leaves the carrier untouched with no
error — a deliberately stored nil is never put on the wire. -/
theorem json_nil_never_propagated (name : String) (key : K)
    (marshal : V → Except GoErr (List Nat))
    (unmarshal : List Nat → Except GoErr (Option V))
    (ctx : Ctx K V) (h : Header) :
    (Ctx.withValue ctx key none).value key = none
    ∧ encodeJSON marshal (Ctx.withValue ctx key none) key = .ok []
    ∧ (ctx.value key = none → encodeJSON marshal ctx key = .ok [])
    ∧ (NewJSONPropagator name key marshal unmarshal).Inject
        (Ctx.withValue ctx key none) h = (h, none) := by
  have hval : (Ctx.withValue ctx key none).value key = none := by
    simp [Ctx.withValue, Ctx.value]
  refine ⟨hval, by simp [encodeJSON, hval], fun habs => by simp [encodeJSON, habs], ?_⟩
  simp [NewJSONPropagator, ValuePropagator.Inject, encodeJSON, hval]

theorem json_nil_never_propagated_witness :
    Ctx.value (Ctx.withValue ([(0, some 3)] : Ctx Nat Nat) 0 none) 0 = none
      ∧ encodeJSON (fun v => .ok [v % 256])
          (Ctx.withValue ([(0, some 3)] : Ctx Nat Nat) 0 none) 0 = .ok []
      ∧ (NewJSONPropagator "j" 0 (fun v => .ok [v % 256])
            (fun d => .ok (d.head?))).Inject
          (Ctx.withValue ([(0, some 3)] : Ctx Nat Nat) 0 none) [("other", "z")]
        = ([("other", "z")], none) :=
  ⟨rfl,
    (json_nil_never_propagated "j" 0 (fun v => .ok [v % 256])
        (fun d => .ok (d.head?)) [(0, some 3)] [("other", "z")]).2.1,
    (json_nil_never_propagated "j" 0 (fun v => .ok [v % 256])
        (fun d => .ok (d.head?)) [(0, some 3)] [("other", "z")]).2.2.2⟩

end Ctxwire
